import Mathlib

/-!
Verification development for the webpage-save repository.

The definitions below are shallow embeddings of the Rust source:
- the result parser `extract_urls_from_results`, the filename logic
  `generate_filename` / `sanitize_filename` and the batch orchestrator
  `search_and_convert_to_pdf` come from src/integration.rs;
- the content-extraction cascade `extract_main_content` comes from
  src/markdown.rs (the select-crate document is modelled as a node tree,
  `find` as a preorder traversal);
- the search wrappers `web_search`, `news_search`, `local_search` come from
  src/search.rs (the external Brave router is a function parameter).

Machine strings are modelled as `String` / `List Char`; Rust `str::trim`,
`str::replace`, `str::lines`, `char::is_whitespace`, `char::is_control` are
reimplemented below on `List Char` with their documented Unicode semantics.
External effects (the search call, directory creation, the per-record
conversion) are explicit `Except` parameters.
-/

/-- Unicode White_Space property, the set used by Rust char::is_whitespace
and by the regex class of whitespace characters. -/
def rustIsWs (c : Char) : Bool :=
  c.val == 0x09 || c.val == 0x0A || c.val == 0x0B || c.val == 0x0C || c.val == 0x0D ||
  c.val == 0x20 || c.val == 0x85 || c.val == 0xA0 || c.val == 0x1680 ||
  (0x2000 ≤ c.val && c.val ≤ 0x200A) ||
  c.val == 0x2028 || c.val == 0x2029 || c.val == 0x202F || c.val == 0x205F || c.val == 0x3000

/-- Unicode general category Cc, the set used by Rust char::is_control. -/
def rustIsControl (c : Char) : Bool :=
  c.val ≤ 0x1F || (0x7F ≤ c.val && c.val ≤ 0x9F)

/-- Rust str::trim, left half: drop leading whitespace. -/
def trimLeftL (l : List Char) : List Char := l.dropWhile rustIsWs

/-- Rust str::trim, right half: drop trailing whitespace. -/
def trimRightL (l : List Char) : List Char := (l.reverse.dropWhile rustIsWs).reverse

/-- Rust str::trim on a character list. -/
def rustTrimL (l : List Char) : List Char := trimRightL (trimLeftL l)

/-- Whether the pattern occurs as a contiguous sublist (Rust str::contains). -/
def containsPat (pat : List Char) : List Char → Bool
  | [] => pat.isEmpty
  | c :: rest => pat.isPrefixOf (c :: rest) || containsPat pat rest

/-- Fuelled worker for `replaceAll`; one fuel unit is spent per character
position, which suffices when the fuel is the length of the list. -/
def replaceAllFuel (pat : List Char) : Nat → List Char → List Char
  | _, [] => []
  | 0, l => l
  | fuel + 1, c :: rest =>
    if pat.isPrefixOf (c :: rest) && !pat.isEmpty then
      replaceAllFuel pat fuel (rest.drop (pat.length - 1))
    else
      c :: replaceAllFuel pat fuel rest

/-- Rust str::replace with an empty replacement string: delete every
(leftmost, non-overlapping) occurrence of the pattern. -/
def replaceAll (pat l : List Char) : List Char := replaceAllFuel pat l.length l

/-- Strip one trailing carriage return, as Rust str::lines does on each
newline-terminated piece. -/
def stripCr (l : List Char) : List Char :=
  if l.getLast? = some '\x0d' then l.dropLast else l

/-- Split at newline characters, accumulating the current piece reversed. -/
def splitNlAux (cur : List Char) : List Char → List (List Char)
  | [] => [cur.reverse]
  | c :: rest =>
    if c = '\n' then stripCr cur.reverse :: splitNlAux [] rest
    else splitNlAux (c :: cur) rest

/-- Rust str::lines: split at newlines, strip a carriage return at the end of
newline-terminated pieces, and drop a final empty piece. -/
def rustLines (l : List Char) : List (List Char) :=
  let parts := splitNlAux [] l
  if parts.getLast? = some [] then parts.dropLast else parts

/-- The record type produced by the result parser (struct SearchResult in
src/integration.rs). -/
structure SearchResult where
  title : String
  url : String
  description : String
deriving DecidableEq, Repr

/-- The three accumulator slots of the primary parsing pass
(current_title, current_url, current_description). -/
structure Accs where
  title : List Char
  url : List Char
  descr : List Char
deriving DecidableEq, Repr

/-- The skip guard of the primary pass, applied to the trimmed line:
`line.is_empty() || line.starts_with("=") || line.starts_with("-")`. -/
def isSkipLine (l : List Char) : Bool :=
  l.isEmpty || "=".data.isPrefixOf l || "-".data.isPrefixOf l

/-- The classification chain of the primary pass, applied to the trimmed
line, in the source's priority order. -/
def classifyLine (st : Accs) (l : List Char) : Accs :=
  if "http://".data.isPrefixOf l || "https://".data.isPrefixOf l then
    { st with url := l }
  else if "URL:".data.isPrefixOf l then
    { st with url := rustTrimL (replaceAll "URL:".data l) }
  else if "Title:".data.isPrefixOf l then
    { st with title := rustTrimL (replaceAll "Title:".data l) }
  else if "Description:".data.isPrefixOf l then
    { st with descr := rustTrimL (replaceAll "Description:".data l) }
  else if !st.url.isEmpty && st.title.isEmpty then
    { st with title := l }
  else if !st.url.isEmpty && !st.title.isEmpty && st.descr.isEmpty then
    { st with descr := l }
  else st

/-- The emission check run after each classified line: if url and title are
both non-empty, push a record and clear all three accumulators. -/
def emitCheck (st : Accs) (out : List SearchResult) : Accs × List SearchResult :=
  if !st.url.isEmpty && !st.title.isEmpty then
    (⟨[], [], []⟩, out ++ [⟨String.mk st.title, String.mk st.url, String.mk st.descr⟩])
  else (st, out)

/-- Processing of one raw line of the primary pass: trim, skip blank and
separator-initial lines, otherwise classify and run the emission check. -/
def processLine (acc : Accs × List SearchResult) (rawLine : List Char) : Accs × List SearchResult :=
  let l := rustTrimL rawLine
  if isSkipLine l then acc
  else emitCheck (classifyLine acc.1 l) acc.2

/-- The primary, line-oriented pass of extract_urls_from_results. -/
def primaryPass (lines : List (List Char)) : List SearchResult :=
  (lines.foldl processLine (⟨[], [], []⟩, [])).2

/-- Fuelled scan for the regex matches of the url pattern: a scheme string
followed by at least one and then maximally many non-whitespace characters,
leftmost and non-overlapping. One fuel unit is spent per character. -/
def urlMatchesFuel : Nat → List Char → List (List Char)
  | 0, _ => []
  | _ + 1, [] => []
  | fuel + 1, c :: rest =>
    if "https://".data.isPrefixOf (c :: rest) then
      let run := (rest.drop 7).takeWhile (fun ch => !rustIsWs ch)
      if run.isEmpty then urlMatchesFuel fuel rest
      else ("https://".data ++ run) :: urlMatchesFuel fuel ((rest.drop 7).drop run.length)
    else if "http://".data.isPrefixOf (c :: rest) then
      let run := (rest.drop 6).takeWhile (fun ch => !rustIsWs ch)
      if run.isEmpty then urlMatchesFuel fuel rest
      else ("http://".data ++ run) :: urlMatchesFuel fuel ((rest.drop 6).drop run.length)
    else urlMatchesFuel fuel rest

/-- All matches of the fallback url regex in the raw text, in match order. -/
def urlMatches (l : List Char) : List (List Char) := urlMatchesFuel l.length l

/-- extract_urls_from_results from src/integration.rs: the primary
line-oriented pass, and if it produced nothing, the regex fallback that
synthesizes one record per url match. The Rust function returns Result but
never an error; the embedding is total. -/
def extract_urls_from_results (s : String) : List SearchResult :=
  let results := primaryPass (rustLines s.data)
  if results.isEmpty then
    (urlMatches s.data).enum.map
      (fun p => ⟨"Search Result " ++ toString (p.1 + 1), String.mk p.2, ""⟩)
  else results

/-- The character replacement of sanitize_filename: the nine reserved
characters and every control character become an underscore. -/
def sanChar (c : Char) : Char :=
  if c = '/' ∨ c = '\\' ∨ c = ':' ∨ c = '*' ∨ c = '?' ∨ c = '\x22' ∨ c = '<' ∨ c = '>' ∨ c = '|' then '_'
  else if rustIsControl c then '_'
  else c

/-- sanitize_filename from src/integration.rs: replace reserved and control
characters by an underscore, then trim whitespace. -/
def sanitize_filename (s : String) : String :=
  String.mk (rustTrimL (s.data.map sanChar))

/-- The four file naming strategies (enum NamingStrategy). -/
inductive NamingStrategy where
  | Title
  | Domain
  | Sequential
  | TitleDomain
deriving DecidableEq, Repr

/-- The outcome of parsing a url with the external url crate, reduced to the
only component generate_filename reads: the optional host. -/
structure ParsedUrl where
  host : Option String
deriving DecidableEq, Repr

/-- generate_filename from src/integration.rs. URL parsing is performed by an
external crate and is passed in as a function; `none` stands for a parse
error, which the source propagates with the question-mark operator. -/
def generate_filename (parseUrl : String → Option ParsedUrl) (r : SearchResult)
    (index : Nat) (strategy : NamingStrategy) (ext : String) : Except String String :=
  match strategy with
  | NamingStrategy.Title =>
    Except.ok ((if r.title = "" then "search_result_" ++ toString (index + 1)
                else sanitize_filename r.title) ++ "." ++ ext)
  | NamingStrategy.Domain =>
    match parseUrl r.url with
    | none => Except.error "relative URL without a base"
    | some u => Except.ok (sanitize_filename (u.host.getD "unknown") ++ "." ++ ext)
  | NamingStrategy.Sequential =>
    Except.ok ("search_result_" ++ toString (index + 1) ++ "." ++ ext)
  | NamingStrategy.TitleDomain =>
    match parseUrl r.url with
    | none => Except.error "relative URL without a base"
    | some u =>
      Except.ok ((if r.title = "" then "result_" ++ toString (index + 1)
                  else sanitize_filename r.title)
                 ++ "_" ++ sanitize_filename (u.host.getD "unknown") ++ "." ++ ext)

/-- The conversion loop of search_and_convert_to_pdf: enumerate the truncated
record list, call convert_url on each record, append the produced paths on
success and keep going on failure. The per-record conversion is an external
effect and is passed in as a function from index and record to outcome. -/
def convertLoop (convert : Nat → SearchResult → Except String (List String))
    (idx : Nat) (acc : List String) : List SearchResult → List String
  | [] => acc
  | r :: rest =>
    match convert idx r with
    | Except.ok fps => convertLoop convert (idx + 1) (acc ++ fps) rest
    | Except.error _ => convertLoop convert (idx + 1) acc rest

/-- search_and_convert_to_pdf from src/integration.rs, with the three
external effects (the search call, directory creation, per-record
conversion) passed in as parameters in the order the source performs them. -/
def search_and_convert_to_pdf (searchOutcome : Except String String)
    (mkdirOutcome : Except String Unit) (maxResults : Nat)
    (convert : Nat → SearchResult → Except String (List String)) :
    Except String (List String) :=
  match searchOutcome with
  | Except.error e => Except.error e
  | Except.ok text =>
    let urls := extract_urls_from_results text
    let urlsToProcess := urls.take maxResults
    match mkdirOutcome with
    | Except.error e => Except.error e
    | Except.ok _ =>
      let converted := convertLoop convert 0 [] urlsToProcess
      if converted.isEmpty then Except.error "No URLs were successfully converted"
      else Except.ok converted

/-- Configuration record for the search wrappers (struct SearchConfig in
src/search.rs). -/
structure SearchConfig where
  count : Option Nat
  offset : Option Nat
  country : Option String
  language : Option String
  freshness : Option String
deriving DecidableEq, Repr

/-- SearchConfig::default(): every field None. -/
def defaultSearchConfig : SearchConfig := ⟨none, none, none, none, none⟩

/-- The error guard shared by the three search wrappers: a router result
starting with the literal prefix is turned into an error. -/
def searchErrorGuard (result : String) : Except String String :=
  if "Error:".data.isPrefixOf result.data then
    Except.error ("Search failed: " ++ result)
  else Except.ok result

/-- web_search from src/search.rs; the external Brave router entry point is
the function parameter. -/
def web_search (router : String → Option Nat → Option Nat → String)
    (query : String) (config : Option SearchConfig) : Except String String :=
  let c := config.getD defaultSearchConfig
  searchErrorGuard (router query c.count c.offset)

/-- news_search from src/search.rs. -/
def news_search
    (router : String → Option Nat → Option Nat → Option String → Option String → Option String → String)
    (query : String) (config : Option SearchConfig) : Except String String :=
  let c := config.getD defaultSearchConfig
  searchErrorGuard (router query c.count c.offset c.country c.language c.freshness)

/-- local_search from src/search.rs. -/
def local_search (router : String → Option Nat → String)
    (query : String) (config : Option SearchConfig) : Except String String :=
  let c := config.getD defaultSearchConfig
  searchErrorGuard (router query c.count)

mutual
/-- A node of the parsed HTML document: an element with tag name, attribute
list and children, or a text node. -/
inductive HNode where
  | elem : String → List (String × String) → HForest → HNode
  | text : String → HNode
/-- A sequence of sibling HTML nodes. -/
inductive HForest where
  | nil : HForest
  | cons : HNode → HForest → HForest
end

/-- First value of the attribute with the given key, as the select crate's
node attr lookup. -/
def attrVal (key : String) : List (String × String) → Option String
  | [] => none
  | (k, v) :: rest => if k == key then some v else attrVal key rest

/-- The select crate's Name predicate: an element with this tag name. -/
def isTag (name : String) (n : HNode) : Bool :=
  match n with
  | HNode.elem t _ _ => t == name
  | HNode.text _ => false

/-- The select crate's Attr predicate: an element whose attribute `key`
equals `val` exactly. -/
def attrIs (key val : String) (n : HNode) : Bool :=
  match n with
  | HNode.elem _ a _ => attrVal key a == some val
  | HNode.text _ => false

mutual
/-- First node satisfying the predicate in a preorder walk of the node. -/
def findNode (p : HNode → Bool) : HNode → Option HNode
  | HNode.elem t a cs =>
    if p (HNode.elem t a cs) then some (HNode.elem t a cs) else findForest p cs
  | HNode.text s => if p (HNode.text s) then some (HNode.text s) else none
/-- First node satisfying the predicate in a preorder walk of the forest:
the select crate's document.find(...).next() in document order. -/
def findForest (p : HNode → Bool) : HForest → Option HNode
  | HForest.nil => none
  | HForest.cons n rest =>
    match findNode p n with
    | some m => some m
    | none => findForest p rest
end

/-- Serialization of an attribute list. -/
def attrsText : List (String × String) → String
  | [] => ""
  | (k, v) :: rest => " " ++ k ++ "=" ++ "\x22" ++ v ++ "\x22" ++ attrsText rest

mutual
/-- Serialization of a node including itself, the select crate's
element.html(). -/
def nodeHtml : HNode → String
  | HNode.elem t a cs => "<" ++ t ++ attrsText a ++ ">" ++ forestHtml cs ++ "</" ++ t ++ ">"
  | HNode.text s => s
/-- Serialization of a forest of sibling nodes. -/
def forestHtml : HForest → String
  | HForest.nil => ""
  | HForest.cons n rest => nodeHtml n ++ forestHtml rest
end

/-- First document element matched by any predicate of the list, trying the
predicates in order: the selector loops of extract_main_content. -/
def firstMatch (doc : HForest) : List (HNode → Bool) → Option HNode
  | [] => none
  | p :: ps =>
    match findForest p doc with
    | some e => some e
    | none => firstMatch doc ps

/-- extract_main_content from src/markdown.rs: tag selectors main, article,
body in order; then the five class selectors; then the id selector; then the
body element again; finally the raw input unchanged. The parsed document is
passed alongside the raw text. -/
def extract_main_content (raw : String) (doc : HForest) : String :=
  match firstMatch doc [isTag "main", isTag "article", isTag "body"] with
  | some e => nodeHtml e
  | none =>
    match firstMatch doc [attrIs "class" "main-content", attrIs "class" "content",
        attrIs "class" "post-content", attrIs "class" "entry-content",
        attrIs "class" "article-content"] with
    | some e => nodeHtml e
    | none =>
      match firstMatch doc [attrIs "id" "content"] with
      | some e => nodeHtml e
      | none =>
        match findForest (isTag "body") doc with
        | some b => nodeHtml b
        | none => raw

/-- Substring test between strings, used to state containment of a text
chunk in an extracted fragment. -/
def containsStr (hay sub : String) : Bool := containsPat sub.data hay.data

/-- A Title: line of a well-formed triple, as the spec writes it. -/
def titleLine (t : List Char) : List Char := "Title: ".data ++ t

/-- A URL: line of a well-formed triple. -/
def urlLine (u : List Char) : List Char := "URL: ".data ++ u

/-- A Description: line of a well-formed triple. -/
def descLine (d : List Char) : List Char := "Description: ".data ++ d

/-- The line sequence of a list of Title:/URL:/Description: triples. -/
def linesOf : List (List Char × List Char × List Char) → List (List Char)
  | [] => []
  | (t, u, d) :: rest => titleLine t :: urlLine u :: descLine d :: linesOf rest

/-- Join lines with a newline separator and no trailing newline. -/
def joinNl : List (List Char) → List Char
  | [] => []
  | [l] => l
  | l :: rest => l ++ '\n' :: joinNl rest

/-- The input text consisting of the given Title:/URL:/Description: triples. -/
def buildTriplesInput (triples : List (List Char × List Char × List Char)) : String :=
  String.mk (joinNl (linesOf triples))

/-- Well-formedness of one field of a triple: non-empty with no surrounding
whitespace, no inner occurrence of its own prefix keyword, and no line
breaks. The first two conjuncts force the field to be non-empty, since the
defaults are whitespace. -/
def cleanChunk (pat v : List Char) : Bool :=
  !rustIsWs (v.headD ' ') && !rustIsWs (v.getLastD ' ') &&
  !containsPat pat v && !v.contains '\n' && !v.contains '\x0d'

/-- Well-formedness of a whole triple. -/
def cleanTriple (x : List Char × List Char × List Char) : Bool :=
  cleanChunk "Title:".data x.1 && cleanChunk "URL:".data x.2.1 &&
  cleanChunk "Description:".data x.2.2

/-- The records the parser's emission rule produces on a triple sequence:
one record per triple in input order; each record is emitted on the triple's
URL: line and therefore carries the description accumulator left over from
the previous triple (empty for the first). -/
def expectedRecords (delta : List Char) : List (List Char × List Char × List Char) → List SearchResult
  | [] => []
  | (t, u, d) :: rest => ⟨String.mk t, String.mk u, String.mk delta⟩ :: expectedRecords d rest

/-- The description accumulator remaining after a triple sequence. -/
def lastDescr (delta : List Char) : List (List Char × List Char × List Char) → List Char
  | [] => delta
  | (_, _, d) :: rest => lastDescr d rest

/-- The spec's wording of the skip condition of claim C4: the trimmed line
is blank or a pure separator run, all equals signs or all dashes. -/
def blankOrSepRun (l : List Char) : Bool :=
  l.isEmpty || l.all (fun c => c == '=') || l.all (fun c => c == '-')

/-- The spec's wording of the prefix-line rule of claim C5: the remainder of
the line after the literal prefix, trimmed. -/
def remainderAfter (pfx l : List Char) : List Char := rustTrimL (l.drop pfx.length)

/-- The paths of the successful conversions, flattened in processing order:
claim C2's description of what the batch collects. -/
def successPaths (convert : Nat → SearchResult → Except String (List String))
    (idx : Nat) : List SearchResult → List String
  | [] => []
  | r :: rest =>
    (match convert idx r with
     | Except.ok fps => fps
     | Except.error _ => []) ++ successPaths convert (idx + 1) rest

/-- Singleton forest. -/
def forest1 (n : HNode) : HForest := HForest.cons n HForest.nil

/-- The main element of the example document used for claim C7. -/
def exMainNode : HNode :=
  HNode.elem "main" []
    (HForest.cons (HNode.elem "h1" [] (forest1 (HNode.text "Main Content")))
      (forest1 (HNode.elem "p" [] (forest1 (HNode.text "This is the main content.")))))

/-- An example document with a main element and a footer element outside of
it, mirroring the extract_main_content test of src/markdown.rs. -/
def exDoc : HForest :=
  forest1 (HNode.elem "html" []
    (forest1 (HNode.elem "body" []
      (HForest.cons (HNode.elem "header" [] (forest1 (HNode.text "Header content")))
        (HForest.cons exMainNode
          (forest1 (HNode.elem "footer" [] (forest1 (HNode.text "Footer content")))))))))

/-- A seven-record search output used as witness input for claim C3. -/
def sevenRecordText : String :=
  "Title: T1\nURL: https://e1.com\nTitle: T2\nURL: https://e2.com\nTitle: T3\nURL: https://e3.com\nTitle: T4\nURL: https://e4.com\nTitle: T5\nURL: https://e5.com\nTitle: T6\nURL: https://e6.com\nTitle: T7\nURL: https://e7.com"

deriving instance DecidableEq for Except

theorem isPrefixOf_append_self (a b : List Char) : a.isPrefixOf (a ++ b) = true := by
  induction a with
  | nil => simp [List.isPrefixOf]
  | cons c rest ih => simp [List.isPrefixOf, ih]

theorem replaceAllFuel_no_occ (pat : List Char) (_hp : pat ≠ []) :
    ∀ f l, containsPat pat l = false → replaceAllFuel pat f l = l := by
  intro f
  induction f with
  | zero => intro l _; cases l <;> rfl
  | succ n ih =>
    intro l hl
    cases l with
    | nil => rfl
    | cons c rest =>
      rw [containsPat] at hl
      simp only [Bool.or_eq_false_iff] at hl
      rw [replaceAllFuel, if_neg, ih rest hl.2]
      simp [hl.1]

theorem replaceAll_prefix (pat l : List Char) (hp : pat ≠ []) (h : containsPat pat l = false) :
    replaceAll pat (pat ++ l) = l := by
  cases pat with
  | nil => exact absurd rfl hp
  | cons p ps =>
    show replaceAllFuel (p :: ps) ((p :: ps) ++ l).length ((p :: ps) ++ l) = l
    have hlen : ((p :: ps) ++ l).length = (ps ++ l).length + 1 := by simp
    rw [hlen]
    show replaceAllFuel (p :: ps) ((ps ++ l).length + 1) (p :: (ps ++ l)) = l
    rw [replaceAllFuel, if_pos]
    · have hdrop : (ps ++ l).drop ((p :: ps).length - 1) = l := by
        have : (p :: ps).length - 1 = ps.length := by simp
        rw [this, List.drop_left]
      rw [hdrop, replaceAllFuel_no_occ (p :: ps) hp _ l h]
    · simp [isPrefixOf_append_self]

theorem getLastD_ignores (l : List Char) (hne : l ≠ []) (x y : Char) :
    l.getLastD x = l.getLastD y := by
  cases l with
  | nil => exact absurd rfl hne
  | cons c rest => rw [List.getLastD_cons, List.getLastD_cons]

theorem getLastD_append (a l : List Char) (hne : l ≠ []) :
    ∀ x, (a ++ l).getLastD x = l.getLastD x := by
  induction a with
  | nil => intro x; rfl
  | cons c rest ih =>
    intro x
    rw [List.cons_append, List.getLastD_cons, ih c]
    exact getLastD_ignores l hne c x

theorem trimLeft_cons_nonws (c : Char) (l : List Char) (h : rustIsWs c = false) :
    trimLeftL (c :: l) = c :: l := by
  simp [trimLeftL, List.dropWhile_cons, h]

theorem trimRight_last_nonws (l : List Char) (hne : l ≠ [])
    (h : rustIsWs (l.getLastD ' ') = false) : trimRightL l = l := by
  obtain ⟨x, m, rfl⟩ : ∃ x m, l = m ++ [x] := by
    refine ⟨l.getLast hne, l.dropLast, ?_⟩
    exact (List.dropLast_append_getLast hne).symm
  have hx : rustIsWs x = false := by
    rwa [getLastD_append m [x] (by simp)] at h
  simp [trimRightL, List.dropWhile_cons, hx]

theorem rustTrim_eq_self (l : List Char) (hne : l ≠ [])
    (hh : rustIsWs (l.headD ' ') = false) (hl : rustIsWs (l.getLastD ' ') = false) :
    rustTrimL l = l := by
  cases l with
  | nil => exact absurd rfl hne
  | cons c rest =>
    rw [rustTrimL, trimLeft_cons_nonws c rest (by simpa using hh)]
    exact trimRight_last_nonws _ (by simp) hl

theorem splitNlAux_append (piece : List Char) :
    ∀ cur t, '\n' ∉ piece → splitNlAux cur (piece ++ t) = splitNlAux (piece.reverse ++ cur) t := by
  induction piece with
  | nil => intro cur t _; simp
  | cons c rest ih =>
    intro cur t h
    have hc : ¬ (c = '\n') := fun hc => h (hc ▸ List.mem_cons_self c rest)
    rw [List.cons_append, splitNlAux, if_neg hc, ih (c :: cur) t (fun hm => h (List.mem_cons_of_mem c hm))]
    simp

theorem stripCr_no_cr (l : List Char) (h : '\x0d' ∉ l) : stripCr l = l := by
  rw [stripCr, if_neg]
  intro hlast
  exact h (List.mem_of_mem_getLast? hlast)

theorem splitNlAux_joinNl (ls : List (List Char)) (hne : ls ≠ [])
    (h : ∀ l ∈ ls, '\n' ∉ l ∧ '\x0d' ∉ l) : splitNlAux [] (joinNl ls) = ls := by
  induction ls with
  | nil => exact absurd rfl hne
  | cons l rest ih =>
    cases rest with
    | nil =>
      have hl := h l (List.mem_cons_self l [])
      have : joinNl [l] = l ++ [] := by simp [joinNl]
      rw [this, splitNlAux_append l [] [] hl.1]
      simp [splitNlAux]
    | cons m ms =>
      have hl := h l (List.mem_cons_self l (m :: ms))
      have hjoin : joinNl (l :: m :: ms) = l ++ '\n' :: joinNl (m :: ms) := rfl
      rw [hjoin, splitNlAux_append l [] ('\n' :: joinNl (m :: ms)) hl.1, splitNlAux, if_pos rfl]
      rw [List.append_nil, List.reverse_reverse, stripCr_no_cr l hl.2]
      rw [ih (by simp) (fun x hx => h x (List.mem_cons_of_mem l hx))]

theorem rustLines_joinNl (ls : List (List Char)) (hne : ls ≠ [])
    (hnonempty : ∀ l ∈ ls, l ≠ [])
    (h : ∀ l ∈ ls, '\n' ∉ l ∧ '\x0d' ∉ l) : rustLines (joinNl ls) = ls := by
  rw [rustLines, splitNlAux_joinNl ls hne h, if_neg]
  intro hlast
  exact hnonempty [] (List.mem_of_mem_getLast? hlast) rfl

theorem clean_split (pat v : List Char) (h : cleanChunk pat v = true) :
    v ≠ [] ∧ rustIsWs (v.headD ' ') = false ∧ rustIsWs (v.getLastD ' ') = false ∧
    containsPat pat v = false ∧ '\n' ∉ v ∧ '\x0d' ∉ v := by
  simp only [cleanChunk, Bool.and_eq_true, Bool.not_eq_true'] at h
  obtain ⟨⟨⟨⟨h1, h2⟩, h3⟩, h4⟩, h5⟩ := h
  refine ⟨?_, h1, h2, h3, ?_, ?_⟩
  · intro hv
    rw [hv] at h1
    exact absurd h1 (by decide)
  · intro hm
    simp [List.contains] at h4
    exact h4 hm
  · intro hm
    simp [List.contains] at h5
    exact h5 hm

theorem rustTrim_space_cons (t : List Char) (hne : t ≠ [])
    (hh : rustIsWs (t.headD ' ') = false) (hl : rustIsWs (t.getLastD ' ') = false) :
    rustTrimL (' ' :: t) = t := by
  cases t with
  | nil => exact absurd rfl hne
  | cons c rest =>
    have hc : rustIsWs c = false := hh
    rw [rustTrimL, trimLeftL, List.dropWhile_cons, if_pos (show rustIsWs ' ' = true from rfl),
      List.dropWhile_cons, if_neg]
    · exact trimRight_last_nonws (c :: rest) (by simp) hl
    · rw [hc]
      exact Bool.false_ne_true

theorem classify_titleLine (st : Accs) (t : List Char)
    (h : cleanChunk "Title:".data t = true) :
    classifyLine st (titleLine t) = { st with title := t } := by
  obtain ⟨hne, hh, hl, hc, _, _⟩ := clean_split _ _ h
  have h1 : ("http://".data.isPrefixOf (titleLine t) || "https://".data.isPrefixOf (titleLine t)) = false := rfl
  have h2 : "URL:".data.isPrefixOf (titleLine t) = false := rfl
  have h3 : "Title:".data.isPrefixOf (titleLine t) = true := rfl
  have h4 : replaceAll "Title:".data (titleLine t) = ' ' :: t := by
    have heq : titleLine t = "Title:".data ++ (' ' :: t) := rfl
    rw [heq]
    apply replaceAll_prefix _ _ (by decide)
    rw [containsPat]
    simp only [Bool.or_eq_false_iff]
    exact ⟨rfl, hc⟩
  have h5 : rustTrimL (' ' :: t) = t := rustTrim_space_cons t hne hh hl
  simp [classifyLine, h1, h2, h3, h4, h5]

theorem classify_urlLine (st : Accs) (u : List Char)
    (h : cleanChunk "URL:".data u = true) :
    classifyLine st (urlLine u) = { st with url := u } := by
  obtain ⟨hne, hh, hl, hc, _, _⟩ := clean_split _ _ h
  have h1 : ("http://".data.isPrefixOf (urlLine u) || "https://".data.isPrefixOf (urlLine u)) = false := rfl
  have h2 : "URL:".data.isPrefixOf (urlLine u) = true := rfl
  have h4 : replaceAll "URL:".data (urlLine u) = ' ' :: u := by
    have heq : urlLine u = "URL:".data ++ (' ' :: u) := rfl
    rw [heq]
    apply replaceAll_prefix _ _ (by decide)
    rw [containsPat]
    simp only [Bool.or_eq_false_iff]
    exact ⟨rfl, hc⟩
  have h5 : rustTrimL (' ' :: u) = u := rustTrim_space_cons u hne hh hl
  simp [classifyLine, h1, h2, h4, h5]

theorem classify_descLine (st : Accs) (d : List Char)
    (h : cleanChunk "Description:".data d = true) :
    classifyLine st (descLine d) = { st with descr := d } := by
  obtain ⟨hne, hh, hl, hc, _, _⟩ := clean_split _ _ h
  have h1 : ("http://".data.isPrefixOf (descLine d) || "https://".data.isPrefixOf (descLine d)) = false := rfl
  have h2 : "URL:".data.isPrefixOf (descLine d) = false := rfl
  have h3 : "Title:".data.isPrefixOf (descLine d) = false := rfl
  have h4 : "Description:".data.isPrefixOf (descLine d) = true := rfl
  have h5 : replaceAll "Description:".data (descLine d) = ' ' :: d := by
    have heq : descLine d = "Description:".data ++ (' ' :: d) := rfl
    rw [heq]
    apply replaceAll_prefix _ _ (by decide)
    rw [containsPat]
    simp only [Bool.or_eq_false_iff]
    exact ⟨rfl, hc⟩
  have h6 : rustTrimL (' ' :: d) = d := rustTrim_space_cons d hne hh hl
  simp [classifyLine, h1, h2, h3, h4, h5, h6]

theorem processLine_pair (st : Accs) (out : List SearchResult) (rawLine : List Char) :
    processLine (st, out) rawLine =
      if isSkipLine (rustTrimL rawLine) then (st, out)
      else emitCheck (classifyLine st (rustTrimL rawLine)) out := rfl

theorem rustTrim_titleLine (t : List Char) (h : cleanChunk "Title:".data t = true) :
    rustTrimL (titleLine t) = titleLine t := by
  obtain ⟨hne, _, hl, _, _, _⟩ := clean_split _ _ h
  apply rustTrim_eq_self
  · simp [titleLine]
  · rfl
  · rw [titleLine, getLastD_append _ t hne]
    exact hl

theorem rustTrim_urlLine (u : List Char) (h : cleanChunk "URL:".data u = true) :
    rustTrimL (urlLine u) = urlLine u := by
  obtain ⟨hne, _, hl, _, _, _⟩ := clean_split _ _ h
  apply rustTrim_eq_self
  · simp [urlLine]
  · rfl
  · rw [urlLine, getLastD_append _ u hne]
    exact hl

theorem rustTrim_descLine (d : List Char) (h : cleanChunk "Description:".data d = true) :
    rustTrimL (descLine d) = descLine d := by
  obtain ⟨hne, _, hl, _, _, _⟩ := clean_split _ _ h
  apply rustTrim_eq_self
  · simp [descLine]
  · rfl
  · rw [descLine, getLastD_append _ d hne]
    exact hl

theorem processLine_titleLine (delta : List Char) (out : List SearchResult) (t : List Char)
    (h : cleanChunk "Title:".data t = true) :
    processLine (⟨[], [], delta⟩, out) (titleLine t) = (⟨t, [], delta⟩, out) := by
  have hno : ¬ (isSkipLine (titleLine t) = true) := by
    rw [show isSkipLine (titleLine t) = false from rfl]
    exact Bool.false_ne_true
  rw [processLine_pair, rustTrim_titleLine t h, if_neg hno, classify_titleLine _ t h]
  simp [emitCheck]

theorem processLine_urlLine (t delta : List Char) (out : List SearchResult) (u : List Char)
    (hu : cleanChunk "URL:".data u = true) (htne : t ≠ []) :
    processLine (⟨t, [], delta⟩, out) (urlLine u) =
      (⟨[], [], []⟩, out ++ [⟨String.mk t, String.mk u, String.mk delta⟩]) := by
  have hune : u ≠ [] := (clean_split _ _ hu).1
  have hno : ¬ (isSkipLine (urlLine u) = true) := by
    rw [show isSkipLine (urlLine u) = false from rfl]
    exact Bool.false_ne_true
  rw [processLine_pair, rustTrim_urlLine u hu, if_neg hno, classify_urlLine _ u hu]
  cases t with
  | nil => exact absurd rfl htne
  | cons c ts =>
    cases u with
    | nil => exact absurd rfl hune
    | cons e us => rfl

theorem processLine_descLine (out : List SearchResult) (d : List Char)
    (h : cleanChunk "Description:".data d = true) :
    processLine (⟨[], [], []⟩, out) (descLine d) = (⟨[], [], d⟩, out) := by
  have hno : ¬ (isSkipLine (descLine d) = true) := by
    rw [show isSkipLine (descLine d) = false from rfl]
    exact Bool.false_ne_true
  rw [processLine_pair, rustTrim_descLine d h, if_neg hno, classify_descLine _ d h]
  simp [emitCheck]

theorem foldl_triples (triples : List (List Char × List Char × List Char)) :
    ∀ delta out, (∀ x ∈ triples, cleanTriple x = true) →
      List.foldl processLine (⟨[], [], delta⟩, out) (linesOf triples) =
        (⟨[], [], lastDescr delta triples⟩, out ++ expectedRecords delta triples) := by
  induction triples with
  | nil =>
    intro delta out _
    simp [linesOf, lastDescr, expectedRecords]
  | cons x rest ih =>
    obtain ⟨t, u, d⟩ := x
    intro delta out h
    have hx := h (t, u, d) (List.mem_cons_self _ _)
    simp only [cleanTriple, Bool.and_eq_true] at hx
    obtain ⟨⟨ht, hu⟩, hd⟩ := hx
    have htne : t ≠ [] := (clean_split _ _ ht).1
    rw [show linesOf ((t, u, d) :: rest) = titleLine t :: urlLine u :: descLine d :: linesOf rest from rfl]
    rw [List.foldl_cons, processLine_titleLine delta out t ht]
    rw [List.foldl_cons, processLine_urlLine t delta out u hu htne]
    rw [List.foldl_cons, processLine_descLine _ d hd]
    rw [ih d _ (fun y hy => h y (List.mem_cons_of_mem _ hy))]
    rw [show lastDescr delta ((t, u, d) :: rest) = lastDescr d rest from rfl]
    rw [show expectedRecords delta ((t, u, d) :: rest) =
      (⟨String.mk t, String.mk u, String.mk delta⟩ : SearchResult) :: expectedRecords d rest from rfl]
    simp

theorem expectedRecords_length (triples : List (List Char × List Char × List Char)) :
    ∀ delta, (expectedRecords delta triples).length = triples.length := by
  induction triples with
  | nil => intro delta; rfl
  | cons x rest ih =>
    obtain ⟨t, u, d⟩ := x
    intro delta
    rw [show expectedRecords delta ((t, u, d) :: rest) =
      (⟨String.mk t, String.mk u, String.mk delta⟩ : SearchResult) :: expectedRecords d rest from rfl]
    simp [ih d]

theorem linesOf_no_breaks (triples : List (List Char × List Char × List Char))
    (h : ∀ x ∈ triples, cleanTriple x = true) :
    ∀ l ∈ linesOf triples, '\n' ∉ l ∧ '\x0d' ∉ l := by
  induction triples with
  | nil => intro l hl; exact absurd hl (by simp [linesOf])
  | cons x rest ih =>
    obtain ⟨t, u, d⟩ := x
    have hx := h (t, u, d) (List.mem_cons_self _ _)
    simp only [cleanTriple, Bool.and_eq_true] at hx
    obtain ⟨⟨ht, hu⟩, hd⟩ := hx
    obtain ⟨_, _, _, _, htn, htr⟩ := clean_split _ _ ht
    obtain ⟨_, _, _, _, hun, hur⟩ := clean_split _ _ hu
    obtain ⟨_, _, _, _, hdn, hdr⟩ := clean_split _ _ hd
    intro l hl
    rw [show linesOf ((t, u, d) :: rest) = titleLine t :: urlLine u :: descLine d :: linesOf rest from rfl] at hl
    simp only [List.mem_cons] at hl
    rcases hl with hl | hl | hl | hl
    · subst hl
      constructor <;> intro hm <;> rcases List.mem_append.mp hm with hm | hm
      · exact absurd hm (by decide)
      · exact htn hm
      · exact absurd hm (by decide)
      · exact htr hm
    · subst hl
      constructor <;> intro hm <;> rcases List.mem_append.mp hm with hm | hm
      · exact absurd hm (by decide)
      · exact hun hm
      · exact absurd hm (by decide)
      · exact hur hm
    · subst hl
      constructor <;> intro hm <;> rcases List.mem_append.mp hm with hm | hm
      · exact absurd hm (by decide)
      · exact hdn hm
      · exact absurd hm (by decide)
      · exact hdr hm
    · exact ih (fun y hy => h y (List.mem_cons_of_mem _ hy)) l hl

theorem linesOf_nonempty (triples : List (List Char × List Char × List Char)) :
    ∀ l ∈ linesOf triples, l ≠ [] := by
  induction triples with
  | nil => intro l hl; exact absurd hl (by simp [linesOf])
  | cons x rest ih =>
    obtain ⟨t, u, d⟩ := x
    intro l hl
    rw [show linesOf ((t, u, d) :: rest) = titleLine t :: urlLine u :: descLine d :: linesOf rest from rfl] at hl
    simp only [List.mem_cons] at hl
    rcases hl with hl | hl | hl | hl
    · subst hl; simp [titleLine]
    · subst hl; simp [urlLine]
    · subst hl; simp [descLine]
    · exact ih l hl

theorem extract_eq (s : String) :
    extract_urls_from_results s =
      if (primaryPass (rustLines s.data)).isEmpty then
        (urlMatches s.data).enum.map
          (fun p => ⟨"Search Result " ++ toString (p.1 + 1), String.mk p.2, ""⟩)
      else primaryPass (rustLines s.data) := rfl

/-- Claim C1: on an input consisting of repeated well-formed
Title:/URL:/Description: line triples, extract_urls_from_results returns
exactly one record per triple in input order; each record is emitted at the
end of the first line after which both the url and title accumulators are
non-empty (the triple's URL: line), carries the description accumulator's
value at that moment (empty if never set, which is what `expectedRecords`
spells out), and all three accumulators are then reset. -/
theorem claim_C1_triples_one_record_each
    (triples : List (List Char × List Char × List Char))
    (h : ∀ x ∈ triples, cleanTriple x = true) :
    extract_urls_from_results (buildTriplesInput triples) = expectedRecords [] triples ∧
    (extract_urls_from_results (buildTriplesInput triples)).length = triples.length := by
  have hmain : extract_urls_from_results (buildTriplesInput triples) = expectedRecords [] triples := by
    cases triples with
    | nil => decide
    | cons x rest =>
      have hx : linesOf (x :: rest) ≠ [] := by
        obtain ⟨t, u, d⟩ := x
        simp [show linesOf ((t, u, d) :: rest) =
          titleLine t :: urlLine u :: descLine d :: linesOf rest from rfl]
      have hlines : rustLines (buildTriplesInput (x :: rest)).data = linesOf (x :: rest) :=
        rustLines_joinNl _ hx (linesOf_nonempty _) (linesOf_no_breaks _ h)
      have hprimary : primaryPass (linesOf (x :: rest)) = expectedRecords [] (x :: rest) := by
        rw [primaryPass, foldl_triples _ [] [] h]
        simp
      have hne2 : (expectedRecords [] (x :: rest)).isEmpty = false := by
        obtain ⟨t, u, d⟩ := x
        rfl
      rw [extract_eq, hlines, hprimary, hne2]
      simp
  exact ⟨hmain, by rw [hmain, expectedRecords_length]⟩

/-- Witness for claim C1: two concrete triples give two records in order;
the first record's description is empty and the second carries the first
triple's description, matching the accumulator mechanics of the claim. -/
theorem claim_C1_witness :
    (∀ x ∈ ([("Alpha".data, "https://a.b".data, "D1".data),
             ("Beta".data, "https://c.d".data, "D2".data)] :
        List (List Char × List Char × List Char)), cleanTriple x = true) ∧
    extract_urls_from_results (buildTriplesInput
        [("Alpha".data, "https://a.b".data, "D1".data),
         ("Beta".data, "https://c.d".data, "D2".data)]) =
      [⟨"Alpha", "https://a.b", ""⟩, ⟨"Beta", "https://c.d", "D1"⟩] := by
  refine ⟨by decide, ?_⟩
  have h := claim_C1_triples_one_record_each
    [("Alpha".data, "https://a.b".data, "D1".data),
     ("Beta".data, "https://c.d".data, "D2".data)] (by decide)
  rw [h.1]
  decide

/-- Counterexample to claim C4 as stated: the trimmed line "- item two" is
skipped by the code (it is never assigned to an accumulator) although it is
neither blank nor a pure separator run; end to end, the emitted record's
title comes from the following line instead. -/
theorem claim_C4_cex :
    isSkipLine "- item two".data = true ∧
    blankOrSepRun "- item two".data = false ∧
    extract_urls_from_results "https://e.x\n- item two\nnext" =
      [⟨"next", "https://e.x", ""⟩] := by
  refine ⟨by decide, by decide, by decide⟩

/-- Claim C4 amended: in the primary pass a line is skipped (state and
output unchanged) exactly when its trimmed form is blank or starts with an
equals sign or a dash, not only when it is a pure separator run; every
other line goes through the priority classification followed by the
emission check. -/
theorem claim_C4_skip_amended :
    (∀ (st : Accs) (out : List SearchResult) (l : List Char),
      (isSkipLine (rustTrimL l) = true → processLine (st, out) l = (st, out)) ∧
      (isSkipLine (rustTrimL l) = false →
        processLine (st, out) l = emitCheck (classifyLine st (rustTrimL l)) out)) ∧
    (∀ l : List Char, isSkipLine l = true ↔
      (l = [] ∨ l.head? = some '=' ∨ l.head? = some '-')) := by
  constructor
  · intro st out l
    constructor
    · intro hskip
      rw [processLine_pair, if_pos hskip]
    · intro hskip
      rw [processLine_pair, if_neg]
      rw [hskip]
      exact Bool.false_ne_true
  · intro l
    cases l with
    | nil => simp [isSkipLine]
    | cons c rest =>
      simp only [isSkipLine, List.isPrefixOf, List.isEmpty_cons, Bool.and_true, Bool.false_or,
        List.head?_cons, Option.some.injEq, Bool.or_eq_true, beq_iff_eq]
      constructor
      · rintro (hc | hc)
        · exact Or.inr (Or.inl hc.symm)
        · exact Or.inr (Or.inr hc.symm)
      · rintro (hc | hc | hc)
        · exact absurd hc (List.cons_ne_nil c rest)
        · exact Or.inl hc.symm
        · exact Or.inr hc.symm

/-- Witness for the amended claim C4: a dash-initial line leaves the state
untouched even though a url is pending and the line could have become the
title. -/
theorem claim_C4_witness :
    processLine ((⟨[], "https://e.x".data, []⟩ : Accs), ([] : List SearchResult)) "- item two".data
      = ((⟨[], "https://e.x".data, []⟩ : Accs), ([] : List SearchResult)) ∧
    isSkipLine (rustTrimL "- item two".data) = true :=
  ⟨(claim_C4_skip_amended.1 ⟨[], "https://e.x".data, []⟩ [] "- item two".data).1 (by decide),
   by decide⟩

theorem isPrefixOf_decomp (pat : List Char) :
    ∀ l, pat.isPrefixOf l = true → l = pat ++ l.drop pat.length := by
  induction pat with
  | nil => intro l _; simp
  | cons p ps ih =>
    intro l h
    cases l with
    | nil => simp [List.isPrefixOf] at h
    | cons c rest =>
      simp only [List.isPrefixOf, Bool.and_eq_true, beq_iff_eq] at h
      obtain ⟨rfl, h2⟩ := h
      have := ih rest h2
      simp only [List.cons_append, List.length_cons, List.drop_succ_cons]
      exact congrArg (p :: ·) this

/-- Claim C5 amended: a trimmed line starting with the literal prefix URL:
sets the current url to the line with every occurrence of the token URL:
removed and the result trimmed (Rust str::replace removes all occurrences,
not only the leading one); when the token occurs only as the leading
prefix this coincides with the remainder after the prefix, trimmed.
Analogously for Title: and Description: lines. -/
theorem claim_C5_prefix_rule_amended (st : Accs) (l : List Char) :
    ("URL:".data.isPrefixOf l = true →
      classifyLine st l = { st with url := rustTrimL (replaceAll "URL:".data l) } ∧
      (containsPat "URL:".data (l.drop 4) = false →
        classifyLine st l = { st with url := remainderAfter "URL:".data l })) ∧
    ("Title:".data.isPrefixOf l = true →
      classifyLine st l = { st with title := rustTrimL (replaceAll "Title:".data l) } ∧
      (containsPat "Title:".data (l.drop 6) = false →
        classifyLine st l = { st with title := remainderAfter "Title:".data l })) ∧
    ("Description:".data.isPrefixOf l = true →
      classifyLine st l = { st with descr := rustTrimL (replaceAll "Description:".data l) } ∧
      (containsPat "Description:".data (l.drop 12) = false →
        classifyLine st l = { st with descr := remainderAfter "Description:".data l })) := by
  refine ⟨?_, ?_, ?_⟩
  · intro h
    have hdec := isPrefixOf_decomp "URL:".data l h
    have hcl : classifyLine st l = { st with url := rustTrimL (replaceAll "URL:".data l) } := by
      rw [hdec]
      have h1 : ("http://".data.isPrefixOf ("URL:".data ++ l.drop 4) ||
          "https://".data.isPrefixOf ("URL:".data ++ l.drop 4)) = false := rfl
      have h2 : "URL:".data.isPrefixOf ("URL:".data ++ l.drop 4) = true :=
        isPrefixOf_append_self _ _
      simp [classifyLine, h1, h2]
    refine ⟨hcl, fun hno => ?_⟩
    rw [hcl]
    have hrepl : replaceAll "URL:".data l = l.drop 4 := by
      conv_lhs => rw [hdec]
      exact replaceAll_prefix _ _ (by decide) hno
    rw [hrepl, remainderAfter]
    rfl
  · intro h
    have hdec := isPrefixOf_decomp "Title:".data l h
    have hcl : classifyLine st l = { st with title := rustTrimL (replaceAll "Title:".data l) } := by
      rw [hdec]
      have h1 : ("http://".data.isPrefixOf ("Title:".data ++ l.drop 6) ||
          "https://".data.isPrefixOf ("Title:".data ++ l.drop 6)) = false := rfl
      have h2 : "URL:".data.isPrefixOf ("Title:".data ++ l.drop 6) = false := rfl
      have h3 : "Title:".data.isPrefixOf ("Title:".data ++ l.drop 6) = true :=
        isPrefixOf_append_self _ _
      simp [classifyLine, h1, h2, h3]
    refine ⟨hcl, fun hno => ?_⟩
    rw [hcl]
    have hrepl : replaceAll "Title:".data l = l.drop 6 := by
      conv_lhs => rw [hdec]
      exact replaceAll_prefix _ _ (by decide) hno
    rw [hrepl, remainderAfter]
    rfl
  · intro h
    have hdec := isPrefixOf_decomp "Description:".data l h
    have hcl : classifyLine st l =
        { st with descr := rustTrimL (replaceAll "Description:".data l) } := by
      rw [hdec]
      have h1 : ("http://".data.isPrefixOf ("Description:".data ++ l.drop 12) ||
          "https://".data.isPrefixOf ("Description:".data ++ l.drop 12)) = false := rfl
      have h2 : "URL:".data.isPrefixOf ("Description:".data ++ l.drop 12) = false := rfl
      have h3 : "Title:".data.isPrefixOf ("Description:".data ++ l.drop 12) = false := rfl
      have h4 : "Description:".data.isPrefixOf ("Description:".data ++ l.drop 12) = true :=
        isPrefixOf_append_self _ _
      simp [classifyLine, h1, h2, h3, h4]
    refine ⟨hcl, fun hno => ?_⟩
    rw [hcl]
    have hrepl : replaceAll "Description:".data l = l.drop 12 := by
      conv_lhs => rw [hdec]
      exact replaceAll_prefix _ _ (by decide) hno
    rw [hrepl, remainderAfter]
    rfl

/-- Witness for the amended claim C5: a URL: line whose keyword occurs only
as the prefix yields the remainder after the prefix, trimmed. -/
theorem claim_C5_witness :
    classifyLine ⟨[], [], []⟩ "URL: https://a.b".data = ⟨[], "https://a.b".data, []⟩ := by
  have h := ((claim_C5_prefix_rule_amended ⟨[], [], []⟩ "URL: https://a.b".data).1
    (by decide)).2 (by decide)
  rw [h]
  decide

/-- Counterexample to claim C5 as stated: on a URL: line containing the
token URL: a second time, the code removes both occurrences rather than
taking the remainder after the leading prefix; the same shows up end to end
in the parsed record. -/
theorem claim_C5_cex :
    classifyLine ⟨[], [], []⟩ "URL: https://e.x/?a=URL:b".data
      = ⟨[], "https://e.x/?a=b".data, []⟩ ∧
    remainderAfter "URL:".data "URL: https://e.x/?a=URL:b".data = "https://e.x/?a=URL:b".data ∧
    "https://e.x/?a=b".data ≠ "https://e.x/?a=URL:b".data ∧
    extract_urls_from_results "Title: x\nURL: https://e.x/?a=URL:b" =
      [⟨"x", "https://e.x/?a=b", ""⟩] := by
  refine ⟨by decide, by decide, by decide, by decide⟩

/-- Claim C8: sanitize_filename maps each of the nine reserved characters
and each control character to an underscore, leaves every other character
unchanged, and trims surrounding whitespace from the result; the two
concrete examples of the spec hold. -/
theorem claim_C8_sanitize :
    (∀ c : Char, sanChar c =
      if (c ∈ ['/', '\\', ':', '*', '?', '\x22', '<', '>', '|'] ∨ rustIsControl c = true)
      then '_' else c) ∧
    (∀ s : String, sanitize_filename s = String.mk (trimRightL (trimLeftL (s.data.map sanChar)))) ∧
    sanitize_filename "test/file*.txt" = "test_file_.txt" ∧
    sanitize_filename "test<file>?.txt" = "test_file__.txt" := by
  refine ⟨?_, fun s => rfl, by decide, by decide⟩
  intro c
  simp only [sanChar, List.mem_cons, List.not_mem_nil, or_false]
  split_ifs <;> tauto

/-- Claim C9: under the Domain strategy, generate_filename fails exactly
when the record's url does not parse; a parsed url without a host gives the
base name unknown, and a parsed url with a host gives the sanitized host. -/
theorem claim_C9_domain_naming (parseUrl : String → Option ParsedUrl) (r : SearchResult)
    (index : Nat) (ext : String) :
    ((∃ e, generate_filename parseUrl r index NamingStrategy.Domain ext = Except.error e) ↔
      parseUrl r.url = none) ∧
    (parseUrl r.url = some ⟨none⟩ →
      generate_filename parseUrl r index NamingStrategy.Domain ext =
        Except.ok ("unknown." ++ ext)) ∧
    (∀ hst, parseUrl r.url = some ⟨some hst⟩ →
      generate_filename parseUrl r index NamingStrategy.Domain ext =
        Except.ok (sanitize_filename hst ++ "." ++ ext)) := by
  refine ⟨⟨?_, ?_⟩, ?_, ?_⟩
  · rintro ⟨e, he⟩
    cases hp : parseUrl r.url with
    | none => rfl
    | some u =>
      rw [show generate_filename parseUrl r index NamingStrategy.Domain ext =
        Except.ok (sanitize_filename (u.host.getD "unknown") ++ "." ++ ext) from by
          simp [generate_filename, hp]] at he
      exact Except.noConfusion he
  · intro hp
    exact ⟨"relative URL without a base", by simp [generate_filename, hp]⟩
  · intro hp
    have hu : sanitize_filename "unknown" = "unknown" := by decide
    simp [generate_filename, hp, hu]
  · intro hst hp
    simp [generate_filename, hp]

/-- Witness for claim C9: a concrete parse function showing the error case,
the hostless case and the host case. -/
theorem claim_C9_witness :
    (∃ e, generate_filename
      (fun s => if s = "https://ex.com/p" then some ⟨some "ex.com"⟩
                else if s = "mailto:x" then some ⟨none⟩ else none)
      ⟨"T", "not a url", "d"⟩ 0 NamingStrategy.Domain "pdf" = Except.error e) ∧
    generate_filename
      (fun s => if s = "https://ex.com/p" then some ⟨some "ex.com"⟩
                else if s = "mailto:x" then some ⟨none⟩ else none)
      ⟨"T", "mailto:x", "d"⟩ 1 NamingStrategy.Domain "md" = Except.ok "unknown.md" ∧
    generate_filename
      (fun s => if s = "https://ex.com/p" then some ⟨some "ex.com"⟩
                else if s = "mailto:x" then some ⟨none⟩ else none)
      ⟨"T", "https://ex.com/p", "d"⟩ 2 NamingStrategy.Domain "pdf" = Except.ok "ex.com.pdf" := by
  refine ⟨?_, ?_, ?_⟩
  · exact (claim_C9_domain_naming _ ⟨"T", "not a url", "d"⟩ 0 "pdf").1.mpr (by decide)
  · exact ((claim_C9_domain_naming _ ⟨"T", "mailto:x", "d"⟩ 1 "md").2.1 (by decide)).trans
      (by decide)
  · exact ((claim_C9_domain_naming _ ⟨"T", "https://ex.com/p", "d"⟩ 2 "pdf").2.2 "ex.com"
      (by decide)).trans (by decide)

theorem searchErrorGuard_spec (result : String) :
    ((∃ e, searchErrorGuard result = Except.error e) ↔
      "Error:".data.isPrefixOf result.data = true) ∧
    ("Error:".data.isPrefixOf result.data = false →
      searchErrorGuard result = Except.ok result) := by
  constructor
  · constructor
    · rintro ⟨e, he⟩
      by_contra hno
      rw [searchErrorGuard, if_neg hno] at he
      exact Except.noConfusion he
    · intro h
      exact ⟨"Search failed: " ++ result, by rw [searchErrorGuard, if_pos h]⟩
  · intro h
    rw [searchErrorGuard, if_neg]
    rw [h]
    exact Bool.false_ne_true

/-- Claim C10: each of web_search, news_search and local_search fails
exactly when the text the router returned starts with the literal prefix
of an error message, and otherwise returns that text unchanged; so a
genuine result that happens to start that way is reported as a failure. -/
theorem claim_C10_error_prefix
    (wr : String → Option Nat → Option Nat → String)
    (nr : String → Option Nat → Option Nat → Option String → Option String → Option String → String)
    (lr : String → Option Nat → String)
    (query : String) (config : Option SearchConfig) :
    (((∃ e, web_search wr query config = Except.error e) ↔
        "Error:".data.isPrefixOf
          (wr query (config.getD defaultSearchConfig).count
            (config.getD defaultSearchConfig).offset).data = true) ∧
      ("Error:".data.isPrefixOf
          (wr query (config.getD defaultSearchConfig).count
            (config.getD defaultSearchConfig).offset).data = false →
        web_search wr query config = Except.ok
          (wr query (config.getD defaultSearchConfig).count
            (config.getD defaultSearchConfig).offset))) ∧
    (((∃ e, news_search nr query config = Except.error e) ↔
        "Error:".data.isPrefixOf
          (nr query (config.getD defaultSearchConfig).count
            (config.getD defaultSearchConfig).offset
            (config.getD defaultSearchConfig).country
            (config.getD defaultSearchConfig).language
            (config.getD defaultSearchConfig).freshness).data = true) ∧
      ("Error:".data.isPrefixOf
          (nr query (config.getD defaultSearchConfig).count
            (config.getD defaultSearchConfig).offset
            (config.getD defaultSearchConfig).country
            (config.getD defaultSearchConfig).language
            (config.getD defaultSearchConfig).freshness).data = false →
        news_search nr query config = Except.ok
          (nr query (config.getD defaultSearchConfig).count
            (config.getD defaultSearchConfig).offset
            (config.getD defaultSearchConfig).country
            (config.getD defaultSearchConfig).language
            (config.getD defaultSearchConfig).freshness))) ∧
    (((∃ e, local_search lr query config = Except.error e) ↔
        "Error:".data.isPrefixOf
          (lr query (config.getD defaultSearchConfig).count).data = true) ∧
      ("Error:".data.isPrefixOf
          (lr query (config.getD defaultSearchConfig).count).data = false →
        local_search lr query config = Except.ok
          (lr query (config.getD defaultSearchConfig).count))) :=
  ⟨searchErrorGuard_spec _, searchErrorGuard_spec _, searchErrorGuard_spec _⟩

/-- Witness for claim C10: routers returning error-prefixed and plain text. -/
theorem claim_C10_witness :
    (∃ e, web_search (fun _ _ _ => "Error: rate limited") "q" none = Except.error e) ∧
    web_search (fun _ _ _ => "Error: rate limited") "other" (some defaultSearchConfig) =
      Except.error "Search failed: Error: rate limited" ∧
    (∃ e, news_search (fun _ _ _ _ _ _ => "Error: x") "q" none = Except.error e) ∧
    local_search (fun _ _ => "fine") "q" none = Except.ok "fine" := by
  have h := claim_C10_error_prefix (fun _ _ _ => "Error: rate limited")
    (fun _ _ _ _ _ _ => "Error: x") (fun _ _ => "fine") "q" none
  exact ⟨h.1.1.mpr (by decide), by decide, h.2.1.1.mpr (by decide), h.2.2.2 (by decide)⟩

theorem convertLoop_eq_successPaths (convert : Nat → SearchResult → Except String (List String)) :
    ∀ (rs : List SearchResult) (idx : Nat) (acc : List String),
      convertLoop convert idx acc rs = acc ++ successPaths convert idx rs := by
  intro rs
  induction rs with
  | nil => intro idx acc; simp [convertLoop, successPaths]
  | cons r rest ih =>
    intro idx acc
    cases hc : convert idx r with
    | ok fps => simp [convertLoop, successPaths, hc, ih, List.append_assoc]
    | error e => simp [convertLoop, successPaths, hc, ih]

theorem successPaths_all_fail (convert : Nat → SearchResult → Except String (List String))
    (h : ∀ i r, ∃ e, convert i r = Except.error e) :
    ∀ (rs : List SearchResult) (idx : Nat), successPaths convert idx rs = [] := by
  intro rs
  induction rs with
  | nil => intro idx; rfl
  | cons r rest ih =>
    intro idx
    obtain ⟨e, he⟩ := h idx r
    simp [successPaths, he, ih]

theorem sacp_ok_eq (text : String) (maxR : Nat)
    (convert : Nat → SearchResult → Except String (List String)) :
    search_and_convert_to_pdf (Except.ok text) (Except.ok ()) maxR convert =
      (if (convertLoop convert 0 [] ((extract_urls_from_results text).take maxR)).isEmpty
       then Except.error "No URLs were successfully converted"
       else Except.ok (convertLoop convert 0 [] ((extract_urls_from_results text).take maxR))) := rfl

/-- Claim C2: with the search succeeded and the directory created, the batch
returns an error exactly when no per-record conversion succeeded; a single
failure never aborts the remaining records (the outcome is always the
flattened successes, in processing order), and if everything fails the
operation returns the aggregate no-items-converted error. -/
theorem claim_C2_error_iff_no_success (text : String) (maxR : Nat)
    (convert : Nat → SearchResult → Except String (List String)) :
    (search_and_convert_to_pdf (Except.ok text) (Except.ok ()) maxR convert =
      if successPaths convert 0 ((extract_urls_from_results text).take maxR) = []
      then Except.error "No URLs were successfully converted"
      else Except.ok (successPaths convert 0 ((extract_urls_from_results text).take maxR))) ∧
    ((∃ e, search_and_convert_to_pdf (Except.ok text) (Except.ok ()) maxR convert =
        Except.error e) ↔
      successPaths convert 0 ((extract_urls_from_results text).take maxR) = []) ∧
    ((∀ i r, ∃ e, convert i r = Except.error e) →
      search_and_convert_to_pdf (Except.ok text) (Except.ok ()) maxR convert =
        Except.error "No URLs were successfully converted") := by
  have hloop : convertLoop convert 0 [] ((extract_urls_from_results text).take maxR) =
      successPaths convert 0 ((extract_urls_from_results text).take maxR) := by
    rw [convertLoop_eq_successPaths]
    simp
  have hmain : search_and_convert_to_pdf (Except.ok text) (Except.ok ()) maxR convert =
      if successPaths convert 0 ((extract_urls_from_results text).take maxR) = []
      then Except.error "No URLs were successfully converted"
      else Except.ok (successPaths convert 0 ((extract_urls_from_results text).take maxR)) := by
    rw [sacp_ok_eq, hloop]
    by_cases h : successPaths convert 0 ((extract_urls_from_results text).take maxR) = [] <;>
      simp [h]
  refine ⟨hmain, ?_, ?_⟩
  · rw [hmain]
    by_cases h : successPaths convert 0 ((extract_urls_from_results text).take maxR) = [] <;>
      simp [h]
  · intro hall
    rw [hmain, if_pos (successPaths_all_fail convert hall _ 0)]

/-- Witness for claim C2: on a two-record input, a failure on the first
record does not prevent the second from converting, and when every record
fails the batch surfaces the aggregate error. -/
theorem claim_C2_witness :
    search_and_convert_to_pdf (Except.ok "Title: A\nURL: https://a.b\nTitle: B\nURL: https://c.d")
      (Except.ok ()) 5
      (fun i _ => if i = 0 then Except.error "fetch failed" else Except.ok ["out/p1.pdf"]) =
      Except.ok ["out/p1.pdf"] ∧
    search_and_convert_to_pdf (Except.ok "Title: A\nURL: https://a.b\nTitle: B\nURL: https://c.d")
      (Except.ok ()) 5 (fun _ _ => Except.error "boom") =
      Except.error "No URLs were successfully converted" := by
  constructor
  · have h := (claim_C2_error_iff_no_success
      "Title: A\nURL: https://a.b\nTitle: B\nURL: https://c.d" 5
      (fun i _ => if i = 0 then Except.error "fetch failed" else Except.ok ["out/p1.pdf"])).1
    rw [h]
    decide
  · exact (claim_C2_error_iff_no_success
      "Title: A\nURL: https://a.b\nTitle: B\nURL: https://c.d" 5
      (fun _ _ => Except.error "boom")).2.2 (fun i r => ⟨"boom", rfl⟩)

theorem convertLoop_ext (convert convert2 : Nat → SearchResult → Except String (List String)) :
    ∀ (rs : List SearchResult) (idx : Nat) (acc : List String),
      (∀ i (h : i < rs.length),
        convert (idx + i) (rs.get ⟨i, h⟩) = convert2 (idx + i) (rs.get ⟨i, h⟩)) →
      convertLoop convert idx acc rs = convertLoop convert2 idx acc rs := by
  intro rs
  induction rs with
  | nil => intro idx acc _; rfl
  | cons r rest ih =>
    intro idx acc hag
    have h0 : convert idx r = convert2 idx r := by
      have := hag 0 (by simp)
      simpa using this
    have hrest : ∀ i (h : i < rest.length),
        convert (idx + 1 + i) (rest.get ⟨i, h⟩) = convert2 (idx + 1 + i) (rest.get ⟨i, h⟩) := by
      intro i h
      have h2 := hag (i + 1) (by simpa using Nat.succ_lt_succ h)
      have harith : idx + (i + 1) = idx + 1 + i := by omega
      simpa [List.get_cons_succ, harith] using h2
    cases hc : convert2 idx r with
    | ok fps => simp [convertLoop, h0, hc, ih _ _ hrest]
    | error e => simp [convertLoop, h0, hc, ih _ _ hrest]

/-- Claim C3: the batch attempts conversion only for the first max_results
parsed records: the truncated list is a prefix of the parsed sequence of
length at most max_results, and the batch outcome depends on the conversion
function only through its values on that truncated list. -/
theorem claim_C3_truncates_to_max (text : String) (maxR : Nat)
    (mkdirOutcome : Except String Unit)
    (convert convert2 : Nat → SearchResult → Except String (List String)) :
    ((extract_urls_from_results text).take maxR).length ≤ maxR ∧
    ((extract_urls_from_results text).take maxR) ++ ((extract_urls_from_results text).drop maxR)
      = extract_urls_from_results text ∧
    ((∀ i (h : i < ((extract_urls_from_results text).take maxR).length),
        convert i (((extract_urls_from_results text).take maxR).get ⟨i, h⟩)
          = convert2 i (((extract_urls_from_results text).take maxR).get ⟨i, h⟩)) →
      search_and_convert_to_pdf (Except.ok text) mkdirOutcome maxR convert =
        search_and_convert_to_pdf (Except.ok text) mkdirOutcome maxR convert2) := by
  refine ⟨?_, List.take_append_drop _ _, ?_⟩
  · rw [List.length_take]
    exact Nat.min_le_left _ _
  · intro hag
    have hloops : convertLoop convert 0 [] ((extract_urls_from_results text).take maxR) =
        convertLoop convert2 0 [] ((extract_urls_from_results text).take maxR) := by
      apply convertLoop_ext
      intro i h
      simpa using hag i h
    cases mkdirOutcome with
    | error e => rfl
    | ok u =>
      rw [show search_and_convert_to_pdf (Except.ok text) (Except.ok u) maxR convert =
        search_and_convert_to_pdf (Except.ok text) (Except.ok ()) maxR convert from rfl]
      rw [show search_and_convert_to_pdf (Except.ok text) (Except.ok u) maxR convert2 =
        search_and_convert_to_pdf (Except.ok text) (Except.ok ()) maxR convert2 from rfl]
      rw [sacp_ok_eq, sacp_ok_eq, hloops]

/-- Witness for claim C3: a search output parsing to seven records with a
maximum of three leads to at most three attempts; two conversion functions
agreeing on the first three records give identical batch outcomes even
though they differ from index three on. -/
theorem claim_C3_witness :
    (extract_urls_from_results sevenRecordText).length = 7 ∧
    ((extract_urls_from_results sevenRecordText).take 3).length ≤ 3 ∧
    search_and_convert_to_pdf (Except.ok sevenRecordText) (Except.ok ()) 3
        (fun i _ => Except.ok ["f" ++ toString i]) =
      search_and_convert_to_pdf (Except.ok sevenRecordText) (Except.ok ()) 3
        (fun i _ => if i < 3 then Except.ok ["f" ++ toString i] else Except.error "late") := by
  refine ⟨by decide, ?_, ?_⟩
  · exact (claim_C3_truncates_to_max sevenRecordText 3 (Except.ok ())
      (fun i _ => Except.ok ["f" ++ toString i])
      (fun i _ => if i < 3 then Except.ok ["f" ++ toString i] else Except.error "late")).1
  · exact (claim_C3_truncates_to_max sevenRecordText 3 (Except.ok ())
      (fun i _ => Except.ok ["f" ++ toString i])
      (fun i _ => if i < 3 then Except.ok ["f" ++ toString i] else Except.error "late")).2.2
      (by decide)

theorem urlMatchesFuel_shape :
    ∀ (f : Nat) (l : List Char), ∀ m ∈ urlMatchesFuel f l,
      ("https://".data.isPrefixOf m = true ∨ "http://".data.isPrefixOf m = true) ∧
      m.all (fun ch => !rustIsWs ch) = true := by
  intro f
  induction f with
  | zero => intro l m hm; simp [urlMatchesFuel] at hm
  | succ n ih =>
    intro l m hm
    cases l with
    | nil => simp [urlMatchesFuel] at hm
    | cons c rest =>
      simp only [urlMatchesFuel] at hm
      by_cases h1 : "https://".data.isPrefixOf (c :: rest) = true
      · rw [if_pos h1] at hm
        by_cases h2 : ((rest.drop 7).takeWhile (fun ch => !rustIsWs ch)).isEmpty = true
        · rw [if_pos h2] at hm
          exact ih rest m hm
        · rw [if_neg h2] at hm
          rcases List.mem_cons.mp hm with hm | hm
          · subst hm
            refine ⟨Or.inl (isPrefixOf_append_self _ _), ?_⟩
            rw [List.all_append]
            have hrun : ((rest.drop 7).takeWhile (fun ch => !rustIsWs ch)).all
                (fun ch => !rustIsWs ch) = true := by
              rw [List.all_eq_true]
              intro ch hch
              have hp := List.mem_takeWhile_imp hch
              simpa using hp
            rw [hrun, show "https://".data.all (fun ch => !rustIsWs ch) = true from by decide]
            rfl
          · exact ih _ m hm
      · rw [if_neg h1] at hm
        by_cases h3 : "http://".data.isPrefixOf (c :: rest) = true
        · rw [if_pos h3] at hm
          by_cases h2 : ((rest.drop 6).takeWhile (fun ch => !rustIsWs ch)).isEmpty = true
          · rw [if_pos h2] at hm
            exact ih rest m hm
          · rw [if_neg h2] at hm
            rcases List.mem_cons.mp hm with hm | hm
            · subst hm
              refine ⟨Or.inr (isPrefixOf_append_self _ _), ?_⟩
              rw [List.all_append]
              have hrun : ((rest.drop 6).takeWhile (fun ch => !rustIsWs ch)).all
                  (fun ch => !rustIsWs ch) = true := by
                rw [List.all_eq_true]
                intro ch hch
                have hp := List.mem_takeWhile_imp hch
                simpa using hp
              rw [hrun, show "http://".data.all (fun ch => !rustIsWs ch) = true from by decide]
              rfl
            · exact ih _ m hm
        · rw [if_neg h3] at hm
          exact ih rest m hm

/-- Claim C6: whenever the primary pass produces no record, the function
returns one record per url match of the raw text, in match order, titled
with the one-based match index and with an empty description; every match
starts with one of the two url schemes and contains no whitespace. -/
theorem claim_C6_fallback (s : String)
    (h : primaryPass (rustLines s.data) = []) :
    extract_urls_from_results s =
      (urlMatches s.data).enum.map
        (fun p => ⟨"Search Result " ++ toString (p.1 + 1), String.mk p.2, ""⟩) ∧
    ∀ m ∈ urlMatches s.data,
      ("https://".data.isPrefixOf m = true ∨ "http://".data.isPrefixOf m = true) ∧
      m.all (fun ch => !rustIsWs ch) = true := by
  constructor
  · rw [extract_eq, h]
    simp
  · intro m hm
    exact urlMatchesFuel_shape _ _ m hm

/-- Witness for claim C6: unstructured text containing exactly two https
urls yields exactly the two synthesized records of the claim. -/
theorem claim_C6_witness :
    extract_urls_from_results "plain text mentioning https://a.b/c and https://d.e/f here" =
      [⟨"Search Result 1", "https://a.b/c", ""⟩, ⟨"Search Result 2", "https://d.e/f", ""⟩] ∧
    primaryPass (rustLines "plain text mentioning https://a.b/c and https://d.e/f here".data)
      = [] := by
  have h := claim_C6_fallback "plain text mentioning https://a.b/c and https://d.e/f here"
    (by decide)
  exact ⟨h.1.trans (by decide), by decide⟩

/-- Claim C7: the content cascade tries the tag selectors main, article,
body in that order, then the five class selectors in order, then the id
selector, then the body tag again, and finally returns the raw input; each
level is consulted only when every earlier level found nothing, and the
first hit is returned. -/
theorem claim_C7_cascade (raw : String) (doc : HForest) :
    (∀ e, findForest (isTag "main") doc = some e →
      extract_main_content raw doc = nodeHtml e) ∧
    (findForest (isTag "main") doc = none →
      ∀ e, findForest (isTag "article") doc = some e →
        extract_main_content raw doc = nodeHtml e) ∧
    (findForest (isTag "main") doc = none →
      findForest (isTag "article") doc = none →
      ∀ e, findForest (isTag "body") doc = some e →
        extract_main_content raw doc = nodeHtml e) ∧
    (findForest (isTag "main") doc = none →
      findForest (isTag "article") doc = none →
      findForest (isTag "body") doc = none →
      ∀ e, findForest (attrIs "class" "main-content") doc = some e →
        extract_main_content raw doc = nodeHtml e) ∧
    (findForest (isTag "main") doc = none →
      findForest (isTag "article") doc = none →
      findForest (isTag "body") doc = none →
      findForest (attrIs "class" "main-content") doc = none →
      ∀ e, findForest (attrIs "class" "content") doc = some e →
        extract_main_content raw doc = nodeHtml e) ∧
    (findForest (isTag "main") doc = none →
      findForest (isTag "article") doc = none →
      findForest (isTag "body") doc = none →
      findForest (attrIs "class" "main-content") doc = none →
      findForest (attrIs "class" "content") doc = none →
      ∀ e, findForest (attrIs "class" "post-content") doc = some e →
        extract_main_content raw doc = nodeHtml e) ∧
    (findForest (isTag "main") doc = none →
      findForest (isTag "article") doc = none →
      findForest (isTag "body") doc = none →
      findForest (attrIs "class" "main-content") doc = none →
      findForest (attrIs "class" "content") doc = none →
      findForest (attrIs "class" "post-content") doc = none →
      ∀ e, findForest (attrIs "class" "entry-content") doc = some e →
        extract_main_content raw doc = nodeHtml e) ∧
    (findForest (isTag "main") doc = none →
      findForest (isTag "article") doc = none →
      findForest (isTag "body") doc = none →
      findForest (attrIs "class" "main-content") doc = none →
      findForest (attrIs "class" "content") doc = none →
      findForest (attrIs "class" "post-content") doc = none →
      findForest (attrIs "class" "entry-content") doc = none →
      ∀ e, findForest (attrIs "class" "article-content") doc = some e →
        extract_main_content raw doc = nodeHtml e) ∧
    (findForest (isTag "main") doc = none →
      findForest (isTag "article") doc = none →
      findForest (isTag "body") doc = none →
      findForest (attrIs "class" "main-content") doc = none →
      findForest (attrIs "class" "content") doc = none →
      findForest (attrIs "class" "post-content") doc = none →
      findForest (attrIs "class" "entry-content") doc = none →
      findForest (attrIs "class" "article-content") doc = none →
      ∀ e, findForest (attrIs "id" "content") doc = some e →
        extract_main_content raw doc = nodeHtml e) ∧
    (findForest (isTag "main") doc = none →
      findForest (isTag "article") doc = none →
      findForest (isTag "body") doc = none →
      findForest (attrIs "class" "main-content") doc = none →
      findForest (attrIs "class" "content") doc = none →
      findForest (attrIs "class" "post-content") doc = none →
      findForest (attrIs "class" "entry-content") doc = none →
      findForest (attrIs "class" "article-content") doc = none →
      findForest (attrIs "id" "content") doc = none →
      extract_main_content raw doc = raw) := by
  refine ⟨?_, ?_, ?_, ?_, ?_, ?_, ?_, ?_, ?_, ?_⟩
  · intro e h1
    simp [extract_main_content, firstMatch, h1]
  · intro h1 e h2
    simp [extract_main_content, firstMatch, h1, h2]
  · intro h1 h2 e h3
    simp [extract_main_content, firstMatch, h1, h2, h3]
  · intro h1 h2 h3 e h4
    simp [extract_main_content, firstMatch, h1, h2, h3, h4]
  · intro h1 h2 h3 h4 e h5
    simp [extract_main_content, firstMatch, h1, h2, h3, h4, h5]
  · intro h1 h2 h3 h4 h5 e h6
    simp [extract_main_content, firstMatch, h1, h2, h3, h4, h5, h6]
  · intro h1 h2 h3 h4 h5 h6 e h7
    simp [extract_main_content, firstMatch, h1, h2, h3, h4, h5, h6, h7]
  · intro h1 h2 h3 h4 h5 h6 h7 e h8
    simp [extract_main_content, firstMatch, h1, h2, h3, h4, h5, h6, h7, h8]
  · intro h1 h2 h3 h4 h5 h6 h7 h8 e h9
    simp [extract_main_content, firstMatch, h1, h2, h3, h4, h5, h6, h7, h8, h9]
  · intro h1 h2 h3 h4 h5 h6 h7 h8 h9
    simp [extract_main_content, firstMatch, h1, h2, h3, h4, h5, h6, h7, h8, h9]

/-- Witness for claim C7: on a document with a main element and a footer
outside of it, the extracted fragment is the main element's markup; it
contains the main element's text chunks and excludes the footer's and the
header's text. -/
theorem claim_C7_witness :
    extract_main_content "raw input" exDoc = nodeHtml exMainNode ∧
    containsStr (extract_main_content "raw input" exDoc) "Main Content" = true ∧
    containsStr (extract_main_content "raw input" exDoc) "This is the main content." = true ∧
    containsStr (extract_main_content "raw input" exDoc) "Footer content" = false ∧
    containsStr (extract_main_content "raw input" exDoc) "Header content" = false := by
  have h := (claim_C7_cascade "raw input" exDoc).1 exMainNode (by rfl)
  refine ⟨h, ?_, ?_, ?_, ?_⟩ <;> rw [h] <;> decide
